import Mathlib

/-!
Shallow embedding of the arena allocator in `src/arena.c` / `src/arena.h`.

Representation choices:
* `size_t` arithmetic is modelled as `Nat` reduced modulo `SIZE_T_MOD = 2^64`
  (LP64) exactly where the C code computes in `size_t`.
* The singly linked chain `head -> ... -> tail` of `struct arena_block_t`
  (field `next`, with `arena_t.head` and `arena_t.tail`) is modelled as the
  list `arena_t.blocks`, head first; `tail` is the last element, matching the
  invariant the C code maintains (`tail` is always the last node reachable
  from `head`, or both are NULL and the list is empty).
* The `data` pointer of a Block is not modelled as an address; a returned pointer
  `b->data + offset` is modelled as the pair (index of the block in the chain,
  byte offset into that block).  `NULL` is `none`.
* `malloc` success/failure is an oracle argument (`MallocResult`) to each
  allocation call; the number of successful `malloc` calls and of `free`
  calls made during one `_arena_alloc` call is recorded in the result so
  that resource-release claims can be stated.
-/

/-- The modulus of `size_t` arithmetic (64-bit platform). -/
def SIZE_T_MOD : Nat := 2 ^ 64

/-- `struct arena_block_t` (src/arena.h): `data` is modelled by the position
of the block in the chain, `next` by the list structure of `arena_t.blocks`. -/
structure arena_block_t where
  capacity : Nat
  offset   : Nat
  deriving Repr, DecidableEq

/-- `struct arena_t` (src/arena.h): the chain from `head` to `tail` as a list. -/
structure arena_t where
  blocks : List arena_block_t
  deriving Repr, DecidableEq

/-- `arena_init` (src/arena.c): `a->head = a->tail = NULL`. -/
def arena_init : arena_t := ⟨[]⟩

/-- Outcome of the up to two `malloc` calls inside one `_arena_alloc` call:
the block-metadata `malloc` fails, or it succeeds and the backing-buffer
`malloc` fails, or both succeed. -/
inductive MallocResult where
  | metaFail
  | dataFail
  | ok
  deriving Repr, DecidableEq

/-- The C expression `(b->offset + align - 1) & ~(align - 1)` computed in
`size_t`: the sum wraps modulo `2^64`, and `~(align - 1)` as a `size_t`
value is `2^64 - align`. -/
def cAlignUp (off align : Nat) : Nat :=
  ((off + align - 1) % SIZE_T_MOD) &&& (SIZE_T_MOD - align)

/-- The C test `!offset + size > b->capacity` (src/arena.c line 20): by
operator precedence `!` binds to `offset` alone, so the left operand is
`(offset == 0 ? 1 : 0) + size`, computed in `size_t`. -/
def cGrowTest (offset size capacity : Nat) : Bool :=
  ((if offset = 0 then 1 else 0) + size) % SIZE_T_MOD > capacity

/-- The full condition of the `if` in `_arena_alloc`:
`!b || !offset + size > b->capacity`, where `b` is the tail block. -/
def arena_needs_grow (a : arena_t) (size align : Nat) : Bool :=
  match a.blocks.getLast? with
  | none => true
  | some b => cGrowTest (cAlignUp b.offset align) size b.capacity

/-- Result of one `_arena_alloc` call: the arena afterwards, the returned
pointer (`none` = `NULL`, `some (i, off)` = `data` of the `i`-th chain block
plus `off` bytes), and the number of successful `malloc` calls and of
`free` calls the call performed. -/
structure AllocEffect where
  arena : arena_t
  ret : Option (Nat × Nat)
  sysAllocs : Nat
  sysFrees : Nat
  deriving Repr, DecidableEq

/-- `_arena_alloc` (src/arena.c).  `m` is the oracle for the (at most two)
`malloc` calls.  Mirrors the source:

* `b = a->tail`; `offset = b ? (b->offset + align - 1) & ~(align - 1) : 0`;
* if `!b || !offset + size > b->capacity`: new capacity
  `size > 4096 ? size : 4096`; `malloc` the metadata (fail ⇒ return NULL);
  `malloc` the buffer (fail ⇒ `free` the metadata, return NULL); initialise
  the block with `offset = 0`, link it at the end of the chain, set
  `b = new_block`, `offset = 0`;
* `ptr = b->data + offset`; `b->offset = offset + size` (in `size_t`). -/
def _arena_alloc (a : arena_t) (size align : Nat) (m : MallocResult) : AllocEffect :=
  if arena_needs_grow a size align then
    match m with
    | .metaFail => ⟨a, none, 0, 0⟩
    | .dataFail => ⟨a, none, 1, 1⟩
    | .ok =>
      let new_capacity := if size > 4096 then size else 4096
      -- the new block is linked in, then served at offset 0 and its
      -- offset advanced to 0 + size
      ⟨⟨a.blocks ++ [⟨new_capacity, (0 + size) % SIZE_T_MOD⟩]⟩,
        some (a.blocks.length, 0), 2, 0⟩
  else
    match a.blocks.getLast? with
    | none => ⟨a, none, 0, 0⟩  -- unreachable: `arena_needs_grow` is true then
    | some b =>
      let offset := cAlignUp b.offset align
      ⟨⟨a.blocks.dropLast ++ [⟨b.capacity, (offset + size) % SIZE_T_MOD⟩]⟩,
        some (a.blocks.length - 1, offset), 0, 0⟩

/-- The number of `free` calls the loop of `arena_deinit` (src/arena.c)
makes while walking the chain: `free(b->data); free(b);` per block. -/
def arena_deinit_walk : List arena_block_t → Nat
  | [] => 0
  | _ :: bs => 2 + arena_deinit_walk bs

/-- `arena_deinit` (src/arena.c) at the level of region state: the walk frees
every block, then `a->head = a->tail = NULL`. -/
def arena_deinit (_ : arena_t) : arena_t := ⟨[]⟩

/-- One allocation request of a call sequence: `size`, `align`, and the
malloc oracle for that call. -/
structure AllocCall where
  size : Nat
  align : Nat
  m : MallocResult
  deriving Repr, DecidableEq

/-- A served allocation: the chain index of the block it was served from,
its start offset in that block, and its size. -/
structure AllocRecord where
  block : Nat
  start : Nat
  size : Nat
  deriving Repr, DecidableEq

/-- Run a sequence of `_arena_alloc` calls, collecting the record of every
successful allocation in call order. -/
def runAllocs : arena_t → List AllocCall → arena_t × List AllocRecord
  | a, [] => (a, [])
  | a, c :: cs =>
    let e := _arena_alloc a c.size c.align c.m
    let rest := runAllocs e.arena cs
    match e.ret with
    | none => rest
    | some (i, off) => (rest.1, ⟨i, off, c.size⟩ :: rest.2)

/-- Operations of the public interface, for reachable-state claims. -/
inductive ArenaOp where
  | alloc (size align : Nat) (m : MallocResult)
  | deinit
  deriving Repr, DecidableEq

/-- Apply one operation to a region. -/
def arenaStep (a : arena_t) : ArenaOp → arena_t
  | .alloc size align m => (_arena_alloc a size align m).arena
  | .deinit => arena_deinit a

/-- Run a sequence of operations starting from a freshly initialised region. -/
def runOps (ops : List ArenaOp) : arena_t := ops.foldl arenaStep arena_init

/-- Total `size + align` over a call sequence; bounding it rules out
`size_t` wraparound during the run. -/
def callBudget : List AllocCall → Nat
  | [] => 0
  | c :: cs => c.size + c.align + callBudget cs

/-- Disjointness of the half-open byte ranges of two served allocations. -/
def recDisjoint (r r' : AllocRecord) : Prop :=
  r.start + r.size ≤ r'.start ∨ r'.start + r'.size ≤ r.start

instance : ∀ r r', Decidable (recDisjoint r r') := fun _ _ =>
  inferInstanceAs (Decidable (_ ∨ _))

/-! ### Arithmetic facts about the C alignment expression -/

/-- Masking a 64-bit value with `~(2^k - 1)` clears its low `k` bits. -/
lemma land_high_mask (y k : Nat) (hk : k ≤ 64) (hy : y < 2 ^ 64) :
    y &&& (2 ^ 64 - 2 ^ k) = y - y % 2 ^ k := by
  have hsub : 2 ^ 64 - 2 ^ k = (2 ^ (64 - k) - 1) <<< k := by
    rw [Nat.shiftLeft_eq, Nat.sub_mul, one_mul, ← pow_add]
    congr 2
    omega
  have hdiv : y - y % 2 ^ k = (y >>> k) <<< k := by
    rw [Nat.shiftLeft_eq, Nat.shiftRight_eq_div_pow]
    have := Nat.div_add_mod' y (2 ^ k)
    omega
  rw [hsub, hdiv]
  apply Nat.eq_of_testBit_eq
  intro i
  rw [Nat.testBit_land, Nat.testBit_shiftLeft, Nat.testBit_shiftLeft, Nat.testBit_shiftRight,
    Nat.testBit_two_pow_sub_one]
  by_cases hik : k ≤ i
  · by_cases hi64 : i < 64
    · have h1 : i - k < 64 - k := by omega
      have h2 : k + (i - k) = i := by omega
      simp [hik, h1, h2]
    · have hyi : y.testBit i = false := by
        apply Nat.testBit_lt_two_pow
        calc y < 2 ^ 64 := hy
          _ ≤ 2 ^ i := Nat.pow_le_pow_right (by norm_num) (by omega)
      have h1 : ¬ (i - k < 64 - k) := by omega
      have h2 : k + (i - k) = i := by omega
      simp [hik, h1, h2, hyi]
  · simp [hik]

/-- `cAlignUp` always returns a multiple of a power-of-two `align`. -/
lemma cAlignUp_dvd (off k : Nat) (hk : k ≤ 64) : 2 ^ k ∣ cAlignUp off (2 ^ k) := by
  unfold cAlignUp SIZE_T_MOD
  set y := (off + 2 ^ k - 1) % 2 ^ 64 with hy
  have hylt : y < 2 ^ 64 := Nat.mod_lt _ (by norm_num)
  rw [land_high_mask y k hk hylt]
  exact Nat.dvd_of_mod_eq_zero (Nat.sub_mod_eq_zero_of_mod_eq (by simp))

/-- When the sum `offset + align - 1` does not wrap, `cAlignUp` is the usual
round-up: it lies between `offset` and `offset + align - 1`. -/
lemma cAlignUp_bounds (off k : Nat) (hk : k ≤ 64) (h : off + 2 ^ k ≤ 2 ^ 64) :
    off ≤ cAlignUp off (2 ^ k) ∧ cAlignUp off (2 ^ k) ≤ off + (2 ^ k - 1) := by
  unfold cAlignUp SIZE_T_MOD
  have hpos : 0 < 2 ^ k := Nat.pos_pow_of_pos k (by norm_num)
  have hylt : off + 2 ^ k - 1 < 2 ^ 64 := by omega
  rw [Nat.mod_eq_of_lt hylt, land_high_mask _ k hk hylt]
  have hmod : (off + 2 ^ k - 1) % 2 ^ k < 2 ^ k := Nat.mod_lt _ hpos
  omega

/-- With `align = 1` the C expression performs no rounding. -/
lemma cAlignUp_one (off : Nat) (h : off < 2 ^ 64) : cAlignUp off 1 = off := by
  have h1 : (1 : Nat) = 2 ^ 0 := rfl
  obtain ⟨hle, hge⟩ := cAlignUp_bounds off 0 (by omega) (by omega)
  simp only [pow_zero] at hle hge
  omega

/-! ### Case analysis of one `_arena_alloc` call -/

/-- Every `_arena_alloc` call does exactly one of three things: fail (leaving
the arena untouched), serve from the existing tail block, or link in and
serve from a fresh block. -/
lemma step_cases (a : arena_t) (s al : Nat) (m : MallocResult) :
    ((_arena_alloc a s al m).ret = none ∧ (_arena_alloc a s al m).arena = a ∧
      arena_needs_grow a s al = true ∧ m ≠ .ok) ∨
    (∃ b L, a.blocks = L ++ [b] ∧
      cGrowTest (cAlignUp b.offset al) s b.capacity = false ∧
      (_arena_alloc a s al m).arena =
        ⟨L ++ [⟨b.capacity, (cAlignUp b.offset al + s) % SIZE_T_MOD⟩]⟩ ∧
      (_arena_alloc a s al m).ret = some (L.length, cAlignUp b.offset al)) ∨
    (m = .ok ∧ arena_needs_grow a s al = true ∧
      (_arena_alloc a s al m).arena =
        ⟨a.blocks ++ [⟨if s > 4096 then s else 4096, (0 + s) % SIZE_T_MOD⟩]⟩ ∧
      (_arena_alloc a s al m).ret = some (a.blocks.length, 0)) := by
  by_cases hg : arena_needs_grow a s al = true
  · cases m with
    | metaFail => left; simp [_arena_alloc, hg]
    | dataFail => left; simp [_arena_alloc, hg]
    | ok => right; right; simp [_arena_alloc, hg]

  · cases hl : a.blocks.getLast? with
    | none =>
      exfalso
      apply hg
      simp [arena_needs_grow, hl]
    | some b =>
      right; left
      obtain ⟨L, hL⟩ := List.getLast?_eq_some_iff.1 hl
      have hgrow : cGrowTest (cAlignUp b.offset al) s b.capacity = false := by
        have : arena_needs_grow a s al = cGrowTest (cAlignUp b.offset al) s b.capacity := by
          simp [arena_needs_grow, hl]
        simp only [Bool.not_eq_true] at hg
        rw [← this, hg]
      refine ⟨b, L, hL, hgrow, ?_, ?_⟩
      · simp only [_arena_alloc, hg, if_false, hl]
        rw [hL]
        simp [List.dropLast_concat]
      · simp only [_arena_alloc, hg, if_false, hl]
        rw [hL]
        simp

/-- Unfolding `runAllocs` over a successful first call. -/
lemma runAllocs_cons_some (a : arena_t) (c : AllocCall) (cs : List AllocCall)
    (i off : Nat) (h : (_arena_alloc a c.size c.align c.m).ret = some (i, off)) :
    (runAllocs a (c :: cs)).2 =
      ⟨i, off, c.size⟩ :: (runAllocs (_arena_alloc a c.size c.align c.m).arena cs).2 := by
  simp [runAllocs, h]

/-- Unfolding `runAllocs` over a failed first call. -/
lemma runAllocs_cons_none (a : arena_t) (c : AllocCall) (cs : List AllocCall)
    (h : (_arena_alloc a c.size c.align c.m).ret = none) :
    (runAllocs a (c :: cs)).2 =
      (runAllocs (_arena_alloc a c.size c.align c.m).arena cs).2 := by
  simp [runAllocs, h]

/-- Invariant of a run: every served allocation either lands in a block that
did not exist at the start of the run, or starts at or after the offset its
block had at the start; and allocations are served in increasing start order
within each block. -/
lemma runAllocs_spec (cs : List AllocCall) :
    ∀ a : arena_t,
    (∀ c ∈ cs, ∃ k, k ≤ 64 ∧ c.align = 2 ^ k) →
    callBudget cs < SIZE_T_MOD →
    (∀ bb ∈ a.blocks, bb.offset + callBudget cs < SIZE_T_MOD) →
    (∀ r ∈ (runAllocs a cs).2,
      a.blocks.length ≤ r.block ∨
        ∃ bb, a.blocks[r.block]? = some bb ∧ bb.offset ≤ r.start) ∧
    List.Pairwise (fun r r' => r.block = r'.block → r.start + r.size ≤ r'.start)
      (runAllocs a cs).2 := by
  induction cs with
  | nil =>
    intro a _ _ _
    constructor
    · intro r hr
      simp [runAllocs] at hr
    · simp [runAllocs]
  | cons c cs ih =>
    intro a hal hb hoff
    have hM : (2 : Nat) ^ 64 = SIZE_T_MOD := rfl
    obtain ⟨k, hk64, hkal⟩ := hal c (List.mem_cons_self c cs)
    have hal' : ∀ c' ∈ cs, ∃ k, k ≤ 64 ∧ c'.align = 2 ^ k :=
      fun c' hc' => hal c' (List.mem_cons_of_mem c hc')
    have hunfold : callBudget (c :: cs) = c.size + c.align + callBudget cs := rfl
    have hbudget : c.size + c.align + callBudget cs < SIZE_T_MOD := by omega
    have halpos : 0 < c.align := by rw [hkal]; positivity
    have hb' : callBudget cs < SIZE_T_MOD := by omega
    rcases step_cases a c.size c.align c.m with
      ⟨hret, harena, _, _⟩ | ⟨b, L, hL, _, harena, hret⟩ | ⟨_, _, harena, hret⟩
    · -- the call failed: nothing recorded, state unchanged
      rw [runAllocs_cons_none a c cs hret, harena]
      exact ih a hal' hb' (fun bb hbb => by have := hoff bb hbb; omega)
    · -- the call was served from the existing tail block `b`
      have hlenA : a.blocks.length = L.length + 1 := by rw [hL]; simp
      have hob : b.offset + (c.size + c.align + callBudget cs) < SIZE_T_MOD := by
        apply hoff
        rw [hL]
        simp
      have halle : b.offset + 2 ^ k ≤ 2 ^ 64 := by rw [hM, ← hkal]; omega
      have hbounds := cAlignUp_bounds b.offset k hk64 halle
      rw [← hkal] at hbounds
      have hnw : cAlignUp b.offset c.align + c.size < SIZE_T_MOD := by
        rw [← hM]; omega
      rw [Nat.mod_eq_of_lt hnw] at harena
      have hoff1 : ∀ bb ∈
          (arena_t.mk (L ++ [⟨b.capacity, cAlignUp b.offset c.align + c.size⟩])).blocks,
          bb.offset + callBudget cs < SIZE_T_MOD := by
        intro bb hbb
        simp only [List.mem_append, List.mem_singleton] at hbb
        rcases hbb with hbb | rfl
        · have hmem : bb ∈ a.blocks := by
            rw [hL]; exact List.mem_append_left _ hbb
          have := hoff bb hmem
          omega
        · simp only
          omega
      obtain ⟨P', PW'⟩ := ih _ hal' hb' hoff1
      rw [runAllocs_cons_some a c cs L.length (cAlignUp b.offset c.align) hret, harena]
      constructor
      · intro r hr
        rcases List.mem_cons.1 hr with rfl | hr'
        · right
          refine ⟨b, ?_, hbounds.1⟩
          rw [hL]
          exact List.getElem?_concat_length L b
        · rcases P' r hr' with hle | ⟨bb1, hbb1, hle1⟩
          · left
            simp only [List.length_append, List.length_cons, List.length_nil] at hle
            omega
          · have hrb : r.block < L.length + 1 := by
              obtain ⟨hlt, _⟩ := List.getElem?_eq_some_iff.1 hbb1
              simpa using hlt
            by_cases hcase : r.block < L.length
            · right
              refine ⟨bb1, ?_, hle1⟩
              rw [List.getElem?_append_left hcase] at hbb1
              rw [hL, List.getElem?_append_left hcase]
              exact hbb1
            · have hrbeq : r.block = L.length := by omega
              right
              refine ⟨b, ?_, ?_⟩
              · rw [hL, hrbeq]
                exact List.getElem?_concat_length L b
              · rw [hrbeq] at hbb1
                have h2 := List.getElem?_concat_length L
                  (⟨b.capacity, cAlignUp b.offset c.align + c.size⟩ : arena_block_t)
                rw [h2] at hbb1
                have hbb1' := Option.some.inj hbb1
                have : bb1.offset = cAlignUp b.offset c.align + c.size := by
                  rw [← hbb1']
                omega
      · rw [List.pairwise_cons]
        refine ⟨?_, PW'⟩
        intro r' hr' heq
        rcases P' r' hr' with hle | ⟨bb1, hbb1, hle1⟩
        · exfalso
          simp only [List.length_append, List.length_cons, List.length_nil] at hle
          simp only at heq
          omega
        · simp only at heq ⊢
          rw [← heq] at hbb1
          have h2 := List.getElem?_concat_length L
            (⟨b.capacity, cAlignUp b.offset c.align + c.size⟩ : arena_block_t)
          rw [h2] at hbb1
          have hbb1' := Option.some.inj hbb1
          have : bb1.offset = cAlignUp b.offset c.align + c.size := by
            rw [← hbb1']
          omega
    · -- the call grew the chain with a fresh block and served from it
      have hsz : (0 + c.size) % SIZE_T_MOD = c.size := by
        rw [Nat.zero_add, Nat.mod_eq_of_lt (by omega)]
      rw [hsz] at harena
      have hoff1 : ∀ bb ∈
          (arena_t.mk (a.blocks ++ [⟨if c.size > 4096 then c.size else 4096, c.size⟩])).blocks,
          bb.offset + callBudget cs < SIZE_T_MOD := by
        intro bb hbb
        simp only [List.mem_append, List.mem_singleton] at hbb
        rcases hbb with hbb | rfl
        · have := hoff bb hbb
          omega
        · simp only
          omega
      obtain ⟨P', PW'⟩ := ih _ hal' hb' hoff1
      rw [runAllocs_cons_some a c cs a.blocks.length 0 hret, harena]
      constructor
      · intro r hr
        rcases List.mem_cons.1 hr with rfl | hr'
        · left
          simp
        · rcases P' r hr' with hle | ⟨bb1, hbb1, hle1⟩
          · left
            simp only [List.length_append, List.length_cons, List.length_nil] at hle
            omega
          · have hrb : r.block < a.blocks.length + 1 := by
              obtain ⟨hlt, _⟩ := List.getElem?_eq_some_iff.1 hbb1
              simpa using hlt
            by_cases hcase : r.block < a.blocks.length
            · right
              refine ⟨bb1, ?_, hle1⟩
              rw [List.getElem?_append_left hcase] at hbb1
              exact hbb1
            · left
              omega
      · rw [List.pairwise_cons]
        refine ⟨?_, PW'⟩
        intro r' hr' heq
        rcases P' r' hr' with hle | ⟨bb1, hbb1, hle1⟩
        · exfalso
          simp only [List.length_append, List.length_cons, List.length_nil] at hle
          simp only at heq
          omega
        · simp only at heq ⊢
          rw [← heq] at hbb1
          have h2 := List.getElem?_concat_length a.blocks
            (⟨if c.size > 4096 then c.size else 4096, c.size⟩ : arena_block_t)
          rw [h2] at hbb1
          have hbb1' := Option.some.inj hbb1
          have : bb1.offset = c.size := by
            rw [← hbb1']
          omega

/-- The request size computed by the `arena_alloc_array` macro (src/arena.h):
`sizeof(type) * (count)`, a `size_t` multiplication that wraps modulo
`2^64` with no overflow check. -/
def arena_alloc_array_size (sizeof_type count : Nat) : Nat :=
  (sizeof_type * count) % SIZE_T_MOD

/-! ### The claims -/

/-- C1: the claim says a new block is allocated exactly when there is no tail
block or the aligned candidate plus `size` exceeds the tail capacity.  The
code disagrees: in the reachable state with one block of capacity 4096 and
offset 4096, a 1-byte request satisfies `candidate + size > capacity`
(4097 > 4096), yet `_arena_alloc` creates no block and serves the request
from the full block (the `if` tests `(!offset) + size > capacity`, which is
`0 + 1 > 4096` here). -/
theorem c1_growth_condition_code_bug :
    (_arena_alloc arena_init 4096 1 .ok).arena = ⟨[⟨4096, 4096⟩]⟩ ∧
    cAlignUp 4096 1 + 1 > 4096 ∧
    arena_needs_grow ⟨[⟨4096, 4096⟩]⟩ 1 1 = false ∧
    (_arena_alloc ⟨[⟨4096, 4096⟩]⟩ 1 1 .ok).arena.blocks.length = 1 ∧
    (_arena_alloc ⟨[⟨4096, 4096⟩]⟩ 1 1 .ok).ret = some (0, 4096) := by
  decide

/-- C2: the claim states the invariant `0 ≤ offset ≤ capacity` for every
block after every operation.  The code violates it: two bump allocations of
4096 bytes each leave the single block with offset 8192 and capacity 4096,
because the second request is served from the full block instead of growing. -/
theorem c2_offset_invariant_code_bug :
    runOps [.alloc 4096 1 .ok, .alloc 4096 1 .ok] = ⟨[⟨4096, 8192⟩]⟩ ∧
    4096 < 8192 := by
  decide

/-- C3: the claim says `allocate(5000, 8)` then `allocate(8, 8)` on a fresh
region yields two blocks, the second allocation in a different block.  The
code serves the second allocation from the same (exhausted) first block at
offset 5000, and no second block is ever created. -/
theorem c3_second_block_code_bug :
    (runAllocs arena_init [⟨5000, 8, .ok⟩, ⟨8, 8, .ok⟩]).1.blocks = [⟨5000, 5008⟩] ∧
    (runAllocs arena_init [⟨5000, 8, .ok⟩, ⟨8, 8, .ok⟩]).2 =
      [⟨0, 0, 5000⟩, ⟨0, 5000, 8⟩] := by
  decide

/-- C4 counterexample: with `size_t` wraparound the claim fails as stated.
Three allocations (sizes `2^63`, `2^63`, `10`, align 1, all mallocs
succeeding) are all served from block 0; the block offset wraps modulo
`2^64` back to 0 after the second, so the third allocation starts at byte 0
of block 0 and overlaps the first. -/
theorem c4_disjointness_counterexample :
    (runAllocs arena_init [⟨2 ^ 63, 1, .ok⟩, ⟨2 ^ 63, 1, .ok⟩, ⟨10, 1, .ok⟩]).2 =
      [⟨0, 0, 2 ^ 63⟩, ⟨0, 2 ^ 63, 2 ^ 63⟩, ⟨0, 0, 10⟩] ∧
    ¬ recDisjoint ⟨0, 0, 2 ^ 63⟩ ⟨0, 0, 10⟩ := by
  exact ⟨by decide, by decide⟩

/-- C4 (amended): for every sequence of `_arena_alloc` calls with
power-of-two alignments on one region, provided the total of sizes and
alignments stays below `2^64` (so no `size_t` offset computation wraps),
the byte ranges of any two allocations served from the same block are
pairwise disjoint. -/
theorem c4_allocations_disjoint (cs : List AllocCall)
    (hal : ∀ c ∈ cs, ∃ k, k ≤ 64 ∧ c.align = 2 ^ k)
    (hb : callBudget cs < SIZE_T_MOD) :
    List.Pairwise (fun r r' => r.block = r'.block → recDisjoint r r')
      (runAllocs arena_init cs).2 := by
  have h := runAllocs_spec cs arena_init hal hb
    (by intro bb hbb; simp [arena_init] at hbb)
  exact h.2.imp (fun hr hb' => Or.inl (hr hb'))

/-- C4 witness: a concrete two-call run with disjoint served ranges. -/
theorem c4_allocations_disjoint_witness :
    List.Pairwise (fun r r' => r.block = r'.block → recDisjoint r r')
      (runAllocs arena_init [⟨5, 1, .ok⟩, ⟨7, 4, .ok⟩]).2 :=
  c4_allocations_disjoint [⟨5, 1, .ok⟩, ⟨7, 4, .ok⟩]
    (by
      intro c hc
      simp only [List.mem_cons, List.not_mem_nil, or_false] at hc
      rcases hc with rfl | rfl
      · exact ⟨0, by omega, rfl⟩
      · exact ⟨2, by omega, rfl⟩)
    (by decide)

/-- C5: `_arena_alloc` returns NULL exactly when the grow branch is taken and
one of its two `malloc` calls fails; in that case every `malloc` obtained
during the attempt has been released (`free` count equals successful
`malloc` count) and the region is left exactly as it was. -/
theorem c5_alloc_fails_iff_malloc_fails (a : arena_t) (size align : Nat)
    (m : MallocResult) :
    ((_arena_alloc a size align m).ret = none ↔
      arena_needs_grow a size align = true ∧ m ≠ .ok) ∧
    ((_arena_alloc a size align m).ret = none →
      (_arena_alloc a size align m).arena = a ∧
      (_arena_alloc a size align m).sysAllocs = (_arena_alloc a size align m).sysFrees) := by
  by_cases hg : arena_needs_grow a size align = true
  · cases m with
    | metaFail => simp [_arena_alloc, hg]
    | dataFail => simp [_arena_alloc, hg]
    | ok => simp [_arena_alloc, hg]
  · rw [Bool.not_eq_true] at hg
    cases hl : a.blocks.getLast? with
    | none =>
      have hn : arena_needs_grow a size align = true := by
        simp [arena_needs_grow, hl]
      rw [hn] at hg
      simp at hg
    | some b =>
      simp [_arena_alloc, hg, hl]

/-- C5 witness: a failing metadata `malloc` on the very first allocation. -/
theorem c5_alloc_fails_iff_malloc_fails_witness :
    ((_arena_alloc arena_init 1 1 .metaFail).ret = none ↔
      arena_needs_grow arena_init 1 1 = true ∧ MallocResult.metaFail ≠ .ok) ∧
    ((_arena_alloc arena_init 1 1 .metaFail).ret = none →
      (_arena_alloc arena_init 1 1 .metaFail).arena = arena_init ∧
      (_arena_alloc arena_init 1 1 .metaFail).sysAllocs =
        (_arena_alloc arena_init 1 1 .metaFail).sysFrees) :=
  c5_alloc_fails_iff_malloc_fails arena_init 1 1 .metaFail

/-- C6: every pointer returned by `_arena_alloc` with power-of-two alignment
`2^k` has a start offset divisible by `2^k`; and with `align = 1` a request
served from the existing tail block starts exactly at the current offset,
with no rounding. -/
theorem c6_alloc_aligned :
    (∀ (a : arena_t) (size k : Nat) (m : MallocResult) (i off : Nat), k ≤ 64 →
      (_arena_alloc a size (2 ^ k) m).ret = some (i, off) → 2 ^ k ∣ off) ∧
    (∀ (a : arena_t) (size : Nat) (m : MallocResult) (b : arena_block_t),
      a.blocks.getLast? = some b → b.offset < SIZE_T_MOD →
      arena_needs_grow a size 1 = false →
      (_arena_alloc a size 1 m).ret = some (a.blocks.length - 1, b.offset)) := by
  constructor
  · intro a size k m i off hk hret
    rcases step_cases a size (2 ^ k) m with
      ⟨hr, _, _, _⟩ | ⟨b, L, _, _, _, hr⟩ | ⟨_, _, _, hr⟩
    · rw [hr] at hret
      exact absurd hret (by simp)
    · rw [hr] at hret
      have h2 : cAlignUp b.offset (2 ^ k) = off :=
        congrArg Prod.snd (Option.some.inj hret)
      rw [← h2]
      exact cAlignUp_dvd b.offset k hk
    · rw [hr] at hret
      have h2 : (0 : Nat) = off := congrArg Prod.snd (Option.some.inj hret)
      rw [← h2]
      exact dvd_zero _
  · intro a size m b hl hlt hng
    rcases step_cases a size 1 m with
      ⟨_, _, hg, _⟩ | ⟨b', L, hL, _, _, hr⟩ | ⟨_, hg, _, _⟩
    · rw [hg] at hng
      simp at hng
    · have hb' : b' = b := by
        rw [hL, List.getLast?_concat] at hl
        exact Option.some.inj hl
      have hlen : a.blocks.length - 1 = L.length := by
        rw [hL]
        simp
      rw [hr, hlen, hb', cAlignUp_one b.offset hlt]
    · rw [hg] at hng
      simp at hng

/-- C6 witness: an 8-aligned allocation lands on a multiple of 8, and an
unaligned request on a tail with offset 5 is served at exactly offset 5. -/
theorem c6_alloc_aligned_witness :
    2 ^ 3 ∣ (0 : Nat) ∧
    (_arena_alloc ⟨[⟨4096, 5⟩]⟩ 7 1 .ok).ret = some (0, 5) :=
  ⟨c6_alloc_aligned.1 arena_init 5 3 .ok 0 0 (by decide) (by decide),
   c6_alloc_aligned.2 ⟨[⟨4096, 5⟩]⟩ 7 .ok ⟨4096, 5⟩ (by decide) (by decide) (by decide)⟩

/-- C7: whenever the grow branch runs to completion it creates a block of
capacity `max size 4096`; and a single allocation from a fresh region with
`size > 4096` succeeds with the serving block capacity at least `size`. -/
theorem c7_new_block_capacity :
    (∀ (a : arena_t) (size align : Nat),
      arena_needs_grow a size align = true →
      ∃ b, (_arena_alloc a size align .ok).arena.blocks.getLast? = some b ∧
        b.capacity = max size 4096) ∧
    (∀ size align : Nat, 4096 < size →
      (_arena_alloc arena_init size align .ok).ret = some (0, 0) ∧
      ∃ b, (_arena_alloc arena_init size align .ok).arena.blocks.getLast? = some b ∧
        size ≤ b.capacity) := by
  constructor
  · intro a size align hg
    refine ⟨⟨if size > 4096 then size else 4096, (0 + size) % SIZE_T_MOD⟩, ?_, ?_⟩
    · simp only [_arena_alloc, hg, if_true]
      exact List.getLast?_concat _
    · simp only
      split <;> omega
  · intro size align hsz
    have hg : arena_needs_grow arena_init size align = true := by
      simp [arena_needs_grow, arena_init]
    constructor
    · simp only [_arena_alloc, hg, if_true]
      rfl
    · refine ⟨⟨if size > 4096 then size else 4096, (0 + size) % SIZE_T_MOD⟩, ?_, ?_⟩
      · simp only [_arena_alloc, hg, if_true]
        exact List.getLast?_concat _
      · simp only
        split <;> omega

/-- C7 witness: a small request creates a default 4096-byte block, and a
5000-byte request from a fresh region succeeds inside a 5000-byte block. -/
theorem c7_new_block_capacity_witness :
    (∃ b, (_arena_alloc arena_init 5 1 .ok).arena.blocks.getLast? = some b ∧
      b.capacity = max 5 4096) ∧
    ((_arena_alloc arena_init 5000 8 .ok).ret = some (0, 0) ∧
      ∃ b, (_arena_alloc arena_init 5000 8 .ok).arena.blocks.getLast? = some b ∧
        5000 ≤ b.capacity) :=
  ⟨c7_new_block_capacity.1 arena_init 5 1 (by decide),
   c7_new_block_capacity.2 5000 8 (by decide)⟩

/-- C8: a zero-byte allocation on an empty region creates one block and
returns the non-NULL pointer (0, 0); on a region with a tail block of
positive capacity it never grows (whatever the malloc oracle would say),
returns the pointer at the aligned current offset, and advances the tail
offset only by the alignment rounding, at most `align - 1` bytes. -/
theorem c8_zero_byte_alloc :
    (∀ (align : Nat) (a : arena_t), a.blocks = [] →
      (_arena_alloc a 0 align .ok).ret = some (0, 0) ∧
      (_arena_alloc a 0 align .ok).arena.blocks.length = 1) ∧
    (∀ (a : arena_t) (k : Nat) (m : MallocResult) (b : arena_block_t),
      a.blocks.getLast? = some b → 0 < b.capacity → k ≤ 64 →
      b.offset + 2 ^ k ≤ SIZE_T_MOD →
      (_arena_alloc a 0 (2 ^ k) m).ret =
        some (a.blocks.length - 1, cAlignUp b.offset (2 ^ k)) ∧
      (_arena_alloc a 0 (2 ^ k) m).arena.blocks.length = a.blocks.length ∧
      (_arena_alloc a 0 (2 ^ k) m).arena.blocks.getLast? =
        some ⟨b.capacity, cAlignUp b.offset (2 ^ k)⟩ ∧
      b.offset ≤ cAlignUp b.offset (2 ^ k) ∧
      cAlignUp b.offset (2 ^ k) ≤ b.offset + (2 ^ k - 1)) := by
  constructor
  · intro align a ha
    have hg : arena_needs_grow a 0 align = true := by
      simp [arena_needs_grow, ha]
    constructor
    · simp only [_arena_alloc, hg, if_true]
      simp [ha]
    · simp only [_arena_alloc, hg, if_true]
      simp [ha]
  · intro a k m b hl hcap hk hle
    have hM : (2 : Nat) ^ 64 = SIZE_T_MOD := rfl
    have hbounds := cAlignUp_bounds b.offset k hk (by omega)
    have hlt : cAlignUp b.offset (2 ^ k) < SIZE_T_MOD := by
      have hpos : 0 < 2 ^ k := Nat.pos_pow_of_pos k (by norm_num)
      omega
    have hng : arena_needs_grow a 0 (2 ^ k) = false := by
      have heq : arena_needs_grow a 0 (2 ^ k) =
          cGrowTest (cAlignUp b.offset (2 ^ k)) 0 b.capacity := by
        simp [arena_needs_grow, hl]
      rw [heq]
      simp only [cGrowTest, decide_eq_false_iff_not]
      by_cases ho : cAlignUp b.offset (2 ^ k) = 0
      · rw [if_pos ho]
        have h2 : ((1 : Nat) + 0) % SIZE_T_MOD = 1 := by decide
        omega
      · rw [if_neg ho]
        have h2 : ((0 : Nat) + 0) % SIZE_T_MOD = 0 := by decide
        omega
    rcases step_cases a 0 (2 ^ k) m with
      ⟨_, _, hg, _⟩ | ⟨b', L, hL, _, harena, hr⟩ | ⟨_, hg, _, _⟩
    · rw [hg] at hng
      simp at hng
    · have hb' : b' = b := by
        rw [hL, List.getLast?_concat] at hl
        exact Option.some.inj hl
      rw [hb'] at harena hr hL
      have hlen : a.blocks.length = L.length + 1 := by
        rw [hL]
        simp
      have hmod : (cAlignUp b.offset (2 ^ k) + 0) % SIZE_T_MOD
          = cAlignUp b.offset (2 ^ k) := by
        rw [Nat.add_zero, Nat.mod_eq_of_lt hlt]
      refine ⟨?_, ?_, ?_, hbounds.1, hbounds.2⟩
      · rw [hr, hlen]
        simp
      · rw [harena]
        simp [hlen]
      · rw [harena, hmod]
        exact List.getLast?_concat _
    · rw [hg] at hng
      simp at hng

/-- C8 witness: `allocate(0, 4)` on an empty region, and a zero-byte
4-aligned allocation on a tail block with capacity 4096 and offset 5, which
is served at offset 8 without consulting malloc. -/
theorem c8_zero_byte_alloc_witness :
    ((_arena_alloc arena_init 0 4 .ok).ret = some (0, 0) ∧
      (_arena_alloc arena_init 0 4 .ok).arena.blocks.length = 1) ∧
    ((_arena_alloc ⟨[⟨4096, 5⟩]⟩ 0 (2 ^ 2) .metaFail).ret =
        some ((⟨[⟨4096, 5⟩]⟩ : arena_t).blocks.length - 1, cAlignUp 5 (2 ^ 2)) ∧
      (_arena_alloc ⟨[⟨4096, 5⟩]⟩ 0 (2 ^ 2) .metaFail).arena.blocks.length =
        (⟨[⟨4096, 5⟩]⟩ : arena_t).blocks.length ∧
      (_arena_alloc ⟨[⟨4096, 5⟩]⟩ 0 (2 ^ 2) .metaFail).arena.blocks.getLast? =
        some ⟨4096, cAlignUp 5 (2 ^ 2)⟩ ∧
      5 ≤ cAlignUp 5 (2 ^ 2) ∧
      cAlignUp 5 (2 ^ 2) ≤ 5 + (2 ^ 2 - 1)) :=
  ⟨c8_zero_byte_alloc.1 4 arena_init rfl,
   c8_zero_byte_alloc.2 ⟨[⟨4096, 5⟩]⟩ 2 .metaFail ⟨4096, 5⟩ (by decide) (by decide)
     (by decide) (by decide)⟩

/-- C9: `arena_deinit` resets the region to the freshly initialised state
(head and tail both NULL); a second `arena_deinit` walks an empty chain,
performing zero `free` calls, and leaves the same state: at region-state
level `arena_deinit` is idempotent. -/
theorem c9_deinit_idempotent (a : arena_t) :
    arena_deinit a = arena_init ∧
    arena_deinit (arena_deinit a) = arena_deinit a ∧
    (arena_deinit a).blocks = [] ∧
    arena_deinit_walk (arena_deinit a).blocks = 0 :=
  ⟨rfl, rfl, rfl, rfl⟩

/-- C10: the `arena_alloc_array` macro computes `sizeof(type) * count` in
wrapping `size_t` arithmetic with no overflow check: for an 8-byte element
type and `count = 2^61 + 1` the requested size wraps to 8 bytes — far less
than `count` elements — and the allocation then succeeds, served from a
default 4096-byte block. -/
theorem c10_alloc_array_overflow :
    arena_alloc_array_size 8 (2 ^ 61 + 1) = 8 ∧
    arena_alloc_array_size 8 (2 ^ 61 + 1) < 2 ^ 61 + 1 ∧
    (_arena_alloc arena_init (arena_alloc_array_size 8 (2 ^ 61 + 1)) 8 .ok).ret =
      some (0, 0) ∧
    (_arena_alloc arena_init (arena_alloc_array_size 8 (2 ^ 61 + 1)) 8 .ok).arena.blocks =
      [⟨4096, 8⟩] := by
  decide

/-- C9 witness: deinitialising a region that owns one block. -/
theorem c9_deinit_idempotent_witness :
    arena_deinit ⟨[⟨4096, 5⟩]⟩ = arena_init ∧
    arena_deinit (arena_deinit ⟨[⟨4096, 5⟩]⟩) = arena_deinit ⟨[⟨4096, 5⟩]⟩ ∧
    (arena_deinit ⟨[⟨4096, 5⟩]⟩).blocks = [] ∧
    arena_deinit_walk (arena_deinit ⟨[⟨4096, 5⟩]⟩).blocks = 0 :=
  c9_deinit_idempotent ⟨[⟨4096, 5⟩]⟩
